import Mathlib

/-!
Verification of the nozzle simulation engine of `src/server.ts`
(CONSOLEBOMBAS).  The engine owns an in-memory array of 48 nozzle
records and mutates them through an HTTP command dispatcher and three
kinds of timer callbacks (a 2000 ms authorization one-shot, a 500 ms
fueling interval, and a 3000 ms completion-to-free one-shot).

The embedding below models:
  * JavaScript numbers as the exact values of the IEEE-754 binary64
    doubles the runtime stores, represented as scaled naturals
    (`m : ℕ` denotes `m / 2 ^ 60`; `toDoubleS` rounds an exact
    rational to the nearest double in the normal range, ties to even);
  * the nozzle collection as a `List Nozzle`;
  * pending timers as a list of per-nozzle timer records; a scheduler
    event `Event.fire i` fires the i-th pending timer, running exactly
    the guarded callback body from the source.  Commands may interleave
    at any point.  This over-approximates the real-time event loop
    (timers may fire in any order here), so safety properties proved
    over all traces also hold for the real scheduler, while the
    concrete counterexample traces below fire timers in orders the
    real 2000/500/3000 ms scheduler does realize.
-/

namespace ConsoleBombas

/-! ## Exact model of the IEEE-754 binary64 arithmetic used by the server

Every number this server computes is a nonnegative binary64 double
lying between 0 and 128, so it is an exact multiple of `2 ^ (-60)`
(doubles of magnitude below `2 ^ 8` have an ulp of at least
`2 ^ (-52)`).  We therefore represent a JavaScript number `x` by the
natural number `x * 2 ^ 60`, and implement the binary64 operations
exactly: round the mathematically exact result to 53 significant bits,
ties to even. -/

/-- The fixed-point scale: a model value `m : ℕ` denotes the real
number `m / 2 ^ 60`. -/
def scale60 : ℕ := 2 ^ 60

/-- Largest `e` with `den * 2 ^ e ≤ num` (0 when `num / den < 1`),
i.e. the floor of the base-2 logarithm of `num / den`; fuel-bounded,
and `fuel = 128` covers every magnitude this program produces. -/
def flog2 : ℕ → ℕ → ℕ → ℕ
  | 0, _, _ => 0
  | fuel + 1, num, den => if num < 2 * den then 0 else flog2 fuel num (2 * den) + 1

/-- Nearest integer to `a / b`, ties to even (the IEEE-754 default
rounding used for arithmetic results). -/
def rdiv (a b : ℕ) : ℕ :=
  let q := a / b
  let r := a % b
  if 2 * r < b then q
  else if b < 2 * r then q + 1
  else if q % 2 = 0 then q else q + 1

/-- The scaled (`* 2 ^ 60`) value of the binary64 double nearest to the
nonnegative rational `num / den`: with `2 ^ e ≤ num / den < 2 ^ (e+1)`
the representable doubles form the grid of step `2 ^ (e - 52)`, which
is `2 ^ (e + 8)` after scaling.  (For `num / den < 1` the grid
`2 ^ (-52)` is used; the only sub-1 values the server produces, 0 and
0.5, lie on it exactly.)  Valid in the normal, non-overflowing range,
which covers every number the server computes. -/
def toDoubleS (num den : ℕ) : ℕ :=
  if num = 0 then 0
  else
    let e := flog2 128 num den
    let g := 2 ^ (e + 8)
    g * rdiv (num * scale60) (den * g)

/-- JavaScript `a + b` on doubles: exact sum, rounded back to a double. -/
def jsAdd (a b : ℕ) : ℕ := toDoubleS (a + b) scale60

/-- JavaScript `a * b` on doubles: exact product, rounded back to a double. -/
def jsMul (a b : ℕ) : ℕ := toDoubleS (a * b) (scale60 * scale60)

/-- JavaScript `Number(x.toFixed(2))` for a nonnegative double `x`:
`toFixed(2)` picks the integer `m` with `m / 100` closest to the exact
value of `x` (ties away from zero for positive `x`, per ECMA-262), and
`Number` parses the decimal string back to the nearest double. -/
def jsToFixed2 (x : ℕ) : ℕ :=
  let a := x * 100
  let m := if 2 * (a % scale60) < scale60 then a / scale60 else a / scale60 + 1
  toDoubleS m 100

/-- The double stored for the literal `5.89` in
`nozzle.currentFueling = { volume: 0, total: 0, price: 5.89 }`
(src/server.ts line 53).  It equals `6631550451303055 * 2 ^ (-50)`,
slightly below 589/100; JSON serialization prints it back as `5.89`. -/
def price589 : ℕ := toDoubleS 589 100

/-- The double for the literal `0.5` added to `volume` on every tick
(src/server.ts line 59); it is exactly one half (`2 ^ 59` scaled). -/
def half : ℕ := toDoubleS 1 2

/-- The scaled value of the literal `20` in the `volume >= 20`
completion test (src/server.ts line 62). -/
def target20 : ℕ := 20 * scale60

/-- Modelled from the spec: `round(volume * price, 2 decimal places)`
with ordinary decimal rounding (ties rounded up), the reading under
which the spec computes `round(0.5 * 5.89, 2) = 2.95`.  Takes an exact
rational `num / den` and returns the number of cents.  This is the
spec's idealized formula, not code from the repository; it is compared
against the server's float computation. -/
def specRound2Cents (num den : ℕ) : ℕ :=
  let a := num * 100
  if 2 * (a % den) < den then a / den else a / den + 1

/-! ## Data model (src/server.ts lines 26-30, 53) -/

/-- The `currentFueling` record `{ volume, total, price }`; the fields
are scaled doubles (`m : ℕ` denotes `m / 2 ^ 60`). -/
structure Fueling where
  volume : ℕ
  total : ℕ
  price : ℕ
deriving DecidableEq

/-- One nozzle record `{ id, status, currentFueling }`.  Statuses are
the source's one-character codes: 'L' Livre/Free, 'E' Espera/Waiting,
'B' Bloqueado/Blocked, 'P' Pronto/Ready, 'A' Abastecendo/Authorized,
'C' Concluiu/Completed. -/
structure Nozzle where
  id : String
  status : Char
  currentFueling : Option Fueling
deriving DecidableEq

/-- The three kinds of scheduled callbacks in the source: the
authorization `setTimeout` (2000 ms), the fueling `setInterval`
(500 ms), and the completion-to-free `setTimeout` (3000 ms). -/
inductive TimerKind where
  | authT
  | intervalT
  | resetT
deriving DecidableEq

/-- A pending timer, bound (by closure) to one nozzle id. -/
structure Timer where
  nid : String
  kind : TimerKind
deriving DecidableEq

/-- The whole mutable server state: the nozzle array plus the set of
pending timers. -/
structure EngineState where
  nozzles : List Nozzle
  timers : List Timer
deriving DecidableEq

/-- Result of `POST /api/command`: 404 `{error: "Nozzle not found"}` or
200 `{success: true, nozzle}` carrying the (possibly updated) record. -/
inductive ApiResult where
  | notFound
  | success (nozzle : Nozzle)
deriving DecidableEq

/-- An observable scheduler step: an HTTP command arriving, or the
event loop firing the `i`-th pending timer. -/
inductive Event where
  | cmd (nozzleId command : String)
  | fire (i : ℕ)
deriving DecidableEq

/-! ## List helpers mirroring the source's in-place mutation -/

/-- `Array.prototype.find`: first element satisfying `p`. -/
def findFirst {α : Type} (p : α → Bool) : List α → Option α
  | [] => none
  | a :: l => if p a then some a else findFirst p l

/-- In-place mutation of the object returned by `find`: replace the
first element satisfying `p` by its image under `f`. -/
def updateFirst {α : Type} (p : α → Bool) (f : α → α) : List α → List α
  | [] => []
  | a :: l => if p a then f a :: l else a :: updateFirst p f l

/-- `nozzles.find(n => n.id === nozzleId)` (src/server.ts line 40). -/
def findNozzle (s : EngineState) (nozzleId : String) : Option Nozzle :=
  findFirst (fun n => n.id == nozzleId) s.nozzles

/-- The status field of the nozzle `find` would return. -/
def statusOf (s : EngineState) (nid : String) : Option Char :=
  (findNozzle s nid).map (fun n => n.status)

/-- The `currentFueling` field of the nozzle `find` would return. -/
def fuelingOf (s : EngineState) (nid : String) : Option (Option Fueling) :=
  (findNozzle s nid).map (fun n => n.currentFueling)

/-! ## The command dispatcher (src/server.ts lines 37-80) -/

/-- The `switch (command)` body's effect on the found nozzle:
`AUTHORIZE` moves 'E' or 'B' to 'P' (otherwise does nothing), `BLOCK`
sets 'B', `FREE` sets 'L'; an unrecognized command falls through.
Note the source's `BLOCK` and `FREE` cases do not touch
`currentFueling`. -/
def commandNozzle (command : String) (n : Nozzle) : Nozzle :=
  if command = "AUTHORIZE" then
    if n.status = 'E' ∨ n.status = 'B' then { n with status := 'P' } else n
  else if command = "BLOCK" then { n with status := 'B' }
  else if command = "FREE" then { n with status := 'L' }
  else n

/-- Timers scheduled by the command: an accepted `AUTHORIZE` schedules
the 2000 ms authorization `setTimeout`; nothing else schedules or
cancels a timer. -/
def commandTimers (command : String) (n : Nozzle) (ts : List Timer) : List Timer :=
  if command = "AUTHORIZE" ∧ (n.status = 'E' ∨ n.status = 'B') then
    ts ++ [⟨n.id, TimerKind.authT⟩]
  else ts

/-- `POST /api/command` with body `{nozzleId, command}`: look the nozzle
up; unknown id returns 404 with no mutation; otherwise run the switch
and answer `{success: true, nozzle}` with the mutated record. -/
def applyCommand (s : EngineState) (nozzleId command : String) :
    ApiResult × EngineState :=
  match findNozzle s nozzleId with
  | none => (ApiResult.notFound, s)
  | some n =>
    (ApiResult.success (commandNozzle command n),
      { nozzles := updateFirst (fun m => m.id == nozzleId) (commandNozzle command) s.nozzles,
        timers := commandTimers command n s.timers })

/-! ## Timer callbacks (src/server.ts lines 50-71) -/

/-- The mutation `nozzle.status = 'A';
nozzle.currentFueling = { volume: 0, total: 0, price: 5.89 }`
(src/server.ts lines 52-53). -/
def promoteNozzle (m : Nozzle) : Nozzle :=
  { m with status := 'A', currentFueling := some ⟨0, 0, price589⟩ }

/-- Body of the authorization `setTimeout`: only if the nozzle is still
'P', promote to 'A', initialize `currentFueling = {0, 0, 5.89}` and
start the 500 ms interval. -/
def authCallback (s : EngineState) (nid : String) : EngineState :=
  match findNozzle s nid with
  | none => s
  | some n =>
    if n.status = 'P' then
      { nozzles := updateFirst (fun m => m.id == nid) promoteNozzle s.nozzles,
        timers := s.timers ++ [⟨nid, TimerKind.intervalT⟩] }
    else s

/-- One tick's effect on the fueling record (src/server.ts lines
59-61): `volume += 0.5; total = Number((volume * price).toFixed(2))`. -/
def tickFueling (f : Fueling) : Fueling :=
  ⟨jsAdd f.volume half, jsToFixed2 (jsMul (jsAdd f.volume half) f.price), f.price⟩

/-- The tick mutation on the nozzle object when the target volume is
reached: update the fueling record and set `status = 'C'`. -/
def completeNozzle (f : Fueling) (m : Nozzle) : Nozzle :=
  { m with status := 'C', currentFueling := some (tickFueling f) }

/-- The tick mutation on the nozzle object below the target volume:
update the fueling record in place. -/
def tickNozzle (f : Fueling) (m : Nozzle) : Nozzle :=
  { m with currentFueling := some (tickFueling f) }

/-- The reset mutation `nozzle.status = 'L';
nozzle.currentFueling = null` (src/server.ts lines 65-66). -/
def clearNozzle (m : Nozzle) : Nozzle :=
  { m with status := 'L', currentFueling := none }

/-- Body of one `setInterval` tick: if the status is no longer 'A' the
interval clears itself (it is not re-armed); otherwise, when a fueling
record exists, add 0.5 to `volume`, recompute
`total = Number((volume * price).toFixed(2))`, and on `volume >= 20`
move to 'C', schedule the 3000 ms reset `setTimeout` and clear the
interval; below 20 the interval stays armed. -/
def intervalCallback (s : EngineState) (nid : String) : EngineState :=
  match findNozzle s nid with
  | none => s
  | some n =>
    if n.status = 'A' then
      match n.currentFueling with
      | none => { s with timers := s.timers ++ [⟨nid, TimerKind.intervalT⟩] }
      | some f =>
        if target20 ≤ (tickFueling f).volume then
          { nozzles := updateFirst (fun m => m.id == nid) (completeNozzle f) s.nozzles,
            timers := s.timers ++ [⟨nid, TimerKind.resetT⟩] }
        else
          { nozzles := updateFirst (fun m => m.id == nid) (tickNozzle f) s.nozzles,
            timers := s.timers ++ [⟨nid, TimerKind.intervalT⟩] }
    else s

/-- Body of the completion `setTimeout` (src/server.ts lines 64-67):
`nozzle.status = 'L'; nozzle.currentFueling = null;` — note there is no
status guard in the source. -/
def resetCallback (s : EngineState) (nid : String) : EngineState :=
  { s with nozzles := updateFirst (fun m => m.id == nid) clearNozzle s.nozzles }

/-- Fire the `i`-th pending timer: remove it from the pending list and
run its callback (an interval that stays armed re-appends itself). -/
def fireTimer (s : EngineState) (i : ℕ) : EngineState :=
  match s.timers.get? i with
  | none => s
  | some t =>
    let s1 : EngineState := { s with timers := s.timers.eraseIdx i }
    match t.kind with
    | TimerKind.authT => authCallback s1 t.nid
    | TimerKind.intervalT => intervalCallback s1 t.nid
    | TimerKind.resetT => resetCallback s1 t.nid

/-- One observable step of the system. -/
def step (s : EngineState) (e : Event) : EngineState :=
  match e with
  | Event.cmd nid c => (applyCommand s nid c).2
  | Event.fire i => fireTimer s i

/-- Run a sequence of events. -/
def run (s : EngineState) (es : List Event) : EngineState :=
  es.foldl step s

/-! ## Initial state (src/server.ts lines 26-30) -/

/-- `padStart(2, '0')`. -/
def padStart2 (s : String) : String :=
  if 2 ≤ s.length then s else String.mk (List.replicate (2 - s.length) '0') ++ s

/-- `{ id: (i+1).toString().padStart(2, '0'), status: 'L', currentFueling: null }`. -/
def mkNozzle (i : ℕ) : Nozzle :=
  { id := padStart2 (Nat.repr (i + 1)), status := 'L', currentFueling := none }

/-- `Array.from({ length: 48 }, (_, i) => ...)`. -/
def initNozzles : List Nozzle := (List.range 48).map mkNozzle

/-- Server state at startup: the 48 free nozzles, no pending timer. -/
def initState : EngineState := { nozzles := initNozzles, timers := [] }

/-- `GET /api/status` returns the whole nozzle array, unfiltered
(src/server.ts lines 33-35). -/
def getStatus (s : EngineState) : List Nozzle := s.nozzles

/-- A state the running server can actually be in. -/
def Reachable (s : EngineState) : Prop := ∃ es, s = run initState es

/-! ## Trace instrumentation used by the temporal claims -/

/-- `isPromotion s nid e` holds when `e` fires an authorization timeout
for nozzle `nid` while that nozzle is still 'P' — the one step that
starts a new fueling episode. -/
def isPromotion (s : EngineState) (nid : String) (e : Event) : Bool :=
  match e with
  | Event.cmd _ _ => false
  | Event.fire i =>
    match s.timers.get? i with
    | none => false
    | some t =>
      t.kind == TimerKind.authT && t.nid == nid &&
        decide (statusOf s nid = some 'P')

/-- No event of the trace starts a new fueling episode for `nid`. -/
def promotionFree (nid : String) : EngineState → List Event → Bool
  | _, [] => true
  | s, e :: es => !isPromotion s nid e && promotionFree nid (step s e) es

/-! ## The state invariant -/

/-- Shape of a live fueling record: price is the double of 5.89 set at
authorization time, total is the float recomputation from volume, and
volume is `k` ticks of half a liter, with `k ≤ 39` while fueling is in
progress (the 40th tick moves the status to 'C'). -/
def NozInv (n : Nozzle) : Prop :=
  ∀ f, n.currentFueling = some f →
    f.price = price589 ∧
    f.total = jsToFixed2 (jsMul f.volume f.price) ∧
    ∃ k : ℕ, k ≤ 40 ∧ f.volume = k * half ∧ (n.status = 'A' → k ≤ 39)

/-- Engine invariant: the id column of the nozzle array never changes
(same length, same order, same ids as at startup) and every nozzle's
fueling record is well-formed. -/
def Inv (s : EngineState) : Prop :=
  s.nozzles.map (fun n => n.id) = initNozzles.map (fun n => n.id) ∧
    ∀ n ∈ s.nozzles, NozInv n

/-! ## Concrete traces used by the evaluated theorems -/

/-- Block nozzle 01, authorize it, and let the 2000 ms timeout promote
it: nozzle 01 is now 'A' with a fresh fueling record and the 500 ms
interval is pending. -/
def trStartFueling : List Event :=
  [Event.cmd "01" "BLOCK", Event.cmd "01" "AUTHORIZE", Event.fire 0]

/-- One more interval tick after `trStartFueling`: the first 0.5 L. -/
def trFirstTick : List Event := trStartFueling ++ [Event.fire 0]

/-- `BLOCK` issued while nozzle 01 is fueling. -/
def trBlockMidFueling : List Event := trStartFueling ++ [Event.cmd "01" "BLOCK"]

/-- `FREE` issued while nozzle 01 is fueling. -/
def trFreeMidFueling : List Event := trStartFueling ++ [Event.cmd "01" "FREE"]

/-- Drive nozzle 01 through a whole 20 L episode (40 interval ticks) to
'C' — the 3000 ms reset timeout is now pending — then `BLOCK` it during
the completion wait. -/
def trBlockDuringReset : List Event :=
  trStartFueling ++ List.replicate 40 (Event.fire 0) ++ [Event.cmd "01" "BLOCK"]

/-! ## Helper lemmas: `findFirst` and `updateFirst` -/

theorem mem_of_findFirst {α : Type} {p : α → Bool} {l : List α} {a : α}
    (h : findFirst p l = some a) : a ∈ l := by
  induction l with
  | nil => simp [findFirst] at h
  | cons x xs ih =>
    simp only [findFirst] at h
    split at h
    · cases h; exact List.mem_cons_self _ _
    · exact List.mem_cons_of_mem _ (ih h)

theorem findFirst_eq_none {α : Type} {p : α → Bool} {l : List α}
    (h : ∀ a ∈ l, p a = false) : findFirst p l = none := by
  induction l with
  | nil => rfl
  | cons x xs ih =>
    simp only [findFirst]
    rw [if_neg (by rw [h x (List.mem_cons_self x xs)]; exact Bool.false_ne_true)]
    exact ih fun a ha => h a (List.mem_cons_of_mem _ ha)

theorem prop_of_findFirst {α : Type} {p : α → Bool} {l : List α} {a : α}
    (h : findFirst p l = some a) : p a = true := by
  induction l with
  | nil => simp [findFirst] at h
  | cons x xs ih =>
    simp only [findFirst] at h
    split at h
    · cases h; assumption
    · exact ih h

theorem updateFirst_of_findFirst_none {α : Type} {p : α → Bool} (f : α → α) {l : List α}
    (h : findFirst p l = none) : updateFirst p f l = l := by
  induction l with
  | nil => rfl
  | cons x xs ih =>
    simp only [findFirst] at h
    simp only [updateFirst]
    split at h
    · cases h
    · rename_i hx
      rw [if_neg hx, ih h]

theorem updateFirst_of_fix {α : Type} {p : α → Bool} {f : α → α} {l : List α} {a : α}
    (h : findFirst p l = some a) (hfa : f a = a) : updateFirst p f l = l := by
  induction l with
  | nil => rfl
  | cons x xs ih =>
    simp only [findFirst] at h
    simp only [updateFirst]
    split at h
    · rename_i hx
      cases h
      rw [if_pos hx, hfa]
    · rename_i hx
      rw [if_neg hx, ih h]

theorem mem_updateFirst_found {α : Type} {p : α → Bool} {f : α → α} {l : List α} {a : α}
    (h : findFirst p l = some a) {b : α} (hb : b ∈ updateFirst p f l) :
    b ∈ l ∨ b = f a := by
  induction l with
  | nil => cases hb
  | cons x xs ih =>
    simp only [findFirst] at h
    simp only [updateFirst] at hb
    split at h
    · rename_i hx
      cases h
      rw [if_pos hx] at hb
      rcases List.mem_cons.mp hb with hb | hb
      · exact Or.inr hb
      · exact Or.inl (List.mem_cons_of_mem _ hb)
    · rename_i hx
      rw [if_neg hx] at hb
      rcases List.mem_cons.mp hb with hb | hb
      · exact Or.inl (hb ▸ List.mem_cons_self _ _)
      · rcases ih h hb with hb | hb
        · exact Or.inl (List.mem_cons_of_mem _ hb)
        · exact Or.inr hb

theorem map_updateFirst {α β : Type} (g : α → β) (p : α → Bool) (f : α → α) (l : List α)
    (hg : ∀ x, g (f x) = g x) : (updateFirst p f l).map g = l.map g := by
  induction l with
  | nil => rfl
  | cons x xs ih =>
    simp only [updateFirst]
    split
    · simp [hg]
    · simp [ih]

theorem findFirst_updateFirst_self {α : Type} (p : α → Bool) (f : α → α) (l : List α)
    (hp : ∀ x, p x = true → p (f x) = true) :
    findFirst p (updateFirst p f l) = (findFirst p l).map f := by
  induction l with
  | nil => rfl
  | cons x xs ih =>
    simp only [updateFirst, findFirst]
    split
    · rename_i hx
      simp [findFirst, hp x hx]
    · rename_i hx
      simp [findFirst, hx, ih]

theorem findFirst_updateFirst_other {α : Type} (p q : α → Bool) (f : α → α) (l : List α)
    (hpq : ∀ x, p x = true → q x = false) (hq : ∀ x, q (f x) = q x) :
    findFirst q (updateFirst p f l) = findFirst q l := by
  induction l with
  | nil => rfl
  | cons x xs ih =>
    simp only [updateFirst]
    split
    · rename_i hx
      simp only [findFirst, hq x, hpq x hx]
      rw [if_neg (by simp [hpq x hx])]
      rw [if_neg (by simp [hpq x hx])]
    · simp only [findFirst]
      by_cases hqx : q x = true
      · rw [if_pos hqx, if_pos hqx]
      · rw [if_neg hqx, if_neg hqx, ih]

/-! ## Helper lemmas: the command switch -/

theorem commandNozzle_id (c : String) (n : Nozzle) : (commandNozzle c n).id = n.id := by
  unfold commandNozzle
  split_ifs <;> rfl

theorem commandNozzle_fueling (c : String) (n : Nozzle) :
    (commandNozzle c n).currentFueling = n.currentFueling := by
  unfold commandNozzle
  split_ifs <;> rfl

theorem commandNozzle_status_cases (c : String) (n : Nozzle) :
    (commandNozzle c n).status = n.status ∨ (commandNozzle c n).status = 'P' ∨
      (commandNozzle c n).status = 'B' ∨ (commandNozzle c n).status = 'L' := by
  unfold commandNozzle
  split_ifs <;> simp

theorem commandNozzle_of_status_A (c : String) (n : Nozzle)
    (h : (commandNozzle c n).status = 'A') : commandNozzle c n = n := by
  unfold commandNozzle at h ⊢
  split_ifs at h ⊢ <;> first | rfl | (exfalso; simp at h)

theorem commandNozzle_block (n : Nozzle) : commandNozzle "BLOCK" n = { n with status := 'B' } := by
  unfold commandNozzle
  rw [if_neg (by decide), if_pos rfl]

theorem commandNozzle_free (n : Nozzle) : commandNozzle "FREE" n = { n with status := 'L' } := by
  unfold commandNozzle
  rw [if_neg (by decide), if_neg (by decide), if_pos rfl]

theorem commandNozzle_auth_accept (n : Nozzle) (h : n.status = 'E' ∨ n.status = 'B') :
    commandNozzle "AUTHORIZE" n = { n with status := 'P' } := by
  unfold commandNozzle
  rw [if_pos rfl, if_pos h]

theorem commandNozzle_auth_reject (n : Nozzle) (h : ¬(n.status = 'E' ∨ n.status = 'B')) :
    commandNozzle "AUTHORIZE" n = n := by
  unfold commandNozzle
  rw [if_pos rfl, if_neg h]

theorem commandNozzle_unknown (c : String) (n : Nozzle) (hc1 : c ≠ "AUTHORIZE")
    (hc2 : c ≠ "BLOCK") (hc3 : c ≠ "FREE") : commandNozzle c n = n := by
  unfold commandNozzle
  rw [if_neg hc1, if_neg hc2, if_neg hc3]

theorem commandTimers_not_auth (c : String) (n : Nozzle) (ts : List Timer)
    (h : c ≠ "AUTHORIZE") : commandTimers c n ts = ts := by
  unfold commandTimers
  exact if_neg (fun hh => h hh.1)

theorem commandTimers_reject (n : Nozzle) (ts : List Timer)
    (h : ¬(n.status = 'E' ∨ n.status = 'B')) : commandTimers "AUTHORIZE" n ts = ts := by
  unfold commandTimers
  exact if_neg (fun hh => h hh.2)

/-! ## Helper lemmas: unfolding the dispatcher and the scheduler -/

theorem applyCommand_of_none (s : EngineState) (nid c : String)
    (h : findNozzle s nid = none) : applyCommand s nid c = (ApiResult.notFound, s) := by
  unfold applyCommand
  rw [h]

theorem applyCommand_of_some (s : EngineState) (nid c : String) (n : Nozzle)
    (h : findNozzle s nid = some n) :
    applyCommand s nid c =
      (ApiResult.success (commandNozzle c n),
        { nozzles := updateFirst (fun m => m.id == nid) (commandNozzle c) s.nozzles,
          timers := commandTimers c n s.timers }) := by
  unfold applyCommand
  rw [h]

theorem step_cmd (s : EngineState) (nid c : String) :
    step s (Event.cmd nid c) = (applyCommand s nid c).2 := rfl

theorem step_fire (s : EngineState) (i : ℕ) : step s (Event.fire i) = fireTimer s i := rfl

theorem run_nil (s : EngineState) : run s [] = s := rfl

theorem run_cons (s : EngineState) (e : Event) (es : List Event) :
    run s (e :: es) = run (step s e) es := rfl

theorem fireTimer_of_none (s : EngineState) (i : ℕ) (h : s.timers.get? i = none) :
    fireTimer s i = s := by
  unfold fireTimer
  rw [h]

theorem fireTimer_of_some (s : EngineState) (i : ℕ) (t : Timer) (h : s.timers.get? i = some t) :
    fireTimer s i =
      match t.kind with
      | TimerKind.authT => authCallback { s with timers := s.timers.eraseIdx i } t.nid
      | TimerKind.intervalT => intervalCallback { s with timers := s.timers.eraseIdx i } t.nid
      | TimerKind.resetT => resetCallback { s with timers := s.timers.eraseIdx i } t.nid := by
  unfold fireTimer
  rw [h]

/-! ## Helper lemmas: how each operation acts on one nozzle's record -/

theorem findNozzle_eq (s : EngineState) (nid : String) :
    findNozzle s nid = findFirst (fun n => n.id == nid) s.nozzles := rfl

theorem findNozzle_set_timers (s : EngineState) (ts : List Timer) (nid : String) :
    findNozzle { s with timers := ts } nid = findNozzle s nid := rfl

theorem findFirst_id_update_self (l : List Nozzle) (nid : String) (f : Nozzle → Nozzle)
    (hid : ∀ m, (f m).id = m.id) :
    findFirst (fun n => n.id == nid) (updateFirst (fun n => n.id == nid) f l)
      = (findFirst (fun n => n.id == nid) l).map f :=
  findFirst_updateFirst_self _ _ _ (fun x hx => by
    show ((f x).id == nid) = true
    rw [hid]
    exact hx)

theorem findFirst_id_update_other (l : List Nozzle) (nid2 nid : String) (f : Nozzle → Nozzle)
    (hne : nid2 ≠ nid) (hid : ∀ m, (f m).id = m.id) :
    findFirst (fun n => n.id == nid) (updateFirst (fun n => n.id == nid2) f l)
      = findFirst (fun n => n.id == nid) l := by
  apply findFirst_updateFirst_other
  · intro x hx
    have hx2 : x.id = nid2 := by simpa using hx
    simp [hx2, hne]
  · intro x
    show ((f x).id == nid) = (x.id == nid)
    rw [hid]

theorem findNozzle_afterCommand_self (s : EngineState) (nid c : String) (n : Nozzle)
    (h : findNozzle s nid = some n) :
    findNozzle (applyCommand s nid c).2 nid = some (commandNozzle c n) := by
  rw [applyCommand_of_some s nid c n h]
  rw [findNozzle_eq]
  show findFirst _ (updateFirst _ _ s.nozzles) = _
  rw [findFirst_id_update_self _ _ _ (commandNozzle_id c), ← findNozzle_eq, h]
  rfl

theorem findNozzle_afterCommand_other (s : EngineState) (nid2 c nid : String)
    (hne : nid2 ≠ nid) :
    findNozzle (applyCommand s nid2 c).2 nid = findNozzle s nid := by
  cases h : findNozzle s nid2 with
  | none => rw [applyCommand_of_none _ _ _ h]
  | some n =>
    rw [applyCommand_of_some _ _ _ _ h, findNozzle_eq]
    show findFirst _ (updateFirst _ _ s.nozzles) = _
    rw [findFirst_id_update_other _ _ _ _ hne (commandNozzle_id c), ← findNozzle_eq]

theorem promoteNozzle_id (m : Nozzle) : (promoteNozzle m).id = m.id := rfl

theorem completeNozzle_id (f : Fueling) (m : Nozzle) : (completeNozzle f m).id = m.id := rfl

theorem tickNozzle_id (f : Fueling) (m : Nozzle) : (tickNozzle f m).id = m.id := rfl

theorem clearNozzle_id (m : Nozzle) : (clearNozzle m).id = m.id := rfl

theorem authCallback_of_none (s : EngineState) (nid : String)
    (h : findNozzle s nid = none) : authCallback s nid = s := by
  unfold authCallback
  rw [h]

theorem authCallback_of_notP (s : EngineState) (nid : String) (n : Nozzle)
    (h : findNozzle s nid = some n) (hs : n.status ≠ 'P') : authCallback s nid = s := by
  unfold authCallback
  rw [h]
  exact if_neg hs

theorem authCallback_of_P (s : EngineState) (nid : String) (n : Nozzle)
    (h : findNozzle s nid = some n) (hs : n.status = 'P') :
    authCallback s nid =
      { nozzles := updateFirst (fun m => m.id == nid) promoteNozzle s.nozzles,
        timers := s.timers ++ [⟨nid, TimerKind.intervalT⟩] } := by
  unfold authCallback
  rw [h]
  exact if_pos hs

theorem findNozzle_authCallback_self (s : EngineState) (nid : String) (n : Nozzle)
    (h : findNozzle s nid = some n) (hs : n.status = 'P') :
    findNozzle (authCallback s nid) nid = some (promoteNozzle n) := by
  rw [authCallback_of_P s nid n h hs, findNozzle_eq]
  show findFirst _ (updateFirst _ promoteNozzle s.nozzles) = _
  rw [findFirst_id_update_self s.nozzles nid promoteNozzle promoteNozzle_id, ← findNozzle_eq, h]
  rfl

theorem findNozzle_authCallback_other (s : EngineState) (nid2 nid : String)
    (hne : nid2 ≠ nid) : findNozzle (authCallback s nid2) nid = findNozzle s nid := by
  cases h : findNozzle s nid2 with
  | none => rw [authCallback_of_none _ _ h]
  | some n =>
    by_cases hs : n.status = 'P'
    · rw [authCallback_of_P _ _ _ h hs, findNozzle_eq]
      show findFirst _ (updateFirst _ promoteNozzle s.nozzles) = _
      rw [findFirst_id_update_other s.nozzles nid2 nid promoteNozzle hne promoteNozzle_id,
        ← findNozzle_eq]
    · rw [authCallback_of_notP _ _ _ h hs]

theorem intervalCallback_of_none (s : EngineState) (nid : String)
    (h : findNozzle s nid = none) : intervalCallback s nid = s := by
  unfold intervalCallback
  rw [h]

theorem intervalCallback_of_notA (s : EngineState) (nid : String) (n : Nozzle)
    (h : findNozzle s nid = some n) (hs : n.status ≠ 'A') : intervalCallback s nid = s := by
  unfold intervalCallback
  rw [h]
  exact if_neg hs

theorem intervalCallback_of_nofuel (s : EngineState) (nid : String) (n : Nozzle)
    (h : findNozzle s nid = some n) (hs : n.status = 'A') (hf : n.currentFueling = none) :
    intervalCallback s nid = { s with timers := s.timers ++ [⟨nid, TimerKind.intervalT⟩] } := by
  obtain ⟨a, b, c0⟩ := n
  have hb : b = 'A' := hs
  have hc : c0 = none := hf
  subst hb hc
  unfold intervalCallback
  rw [h]
  rfl

theorem intervalCallback_of_complete (s : EngineState) (nid : String) (n : Nozzle) (f : Fueling)
    (h : findNozzle s nid = some n) (hs : n.status = 'A') (hf : n.currentFueling = some f)
    (hv : target20 ≤ (tickFueling f).volume) :
    intervalCallback s nid =
      { nozzles := updateFirst (fun m => m.id == nid) (completeNozzle f) s.nozzles,
        timers := s.timers ++ [⟨nid, TimerKind.resetT⟩] } := by
  obtain ⟨a, b, c0⟩ := n
  have hb : b = 'A' := hs
  have hc : c0 = some f := hf
  subst hb hc
  unfold intervalCallback
  rw [h]
  dsimp only
  rw [if_pos hv, if_pos rfl]

theorem intervalCallback_of_tick (s : EngineState) (nid : String) (n : Nozzle) (f : Fueling)
    (h : findNozzle s nid = some n) (hs : n.status = 'A') (hf : n.currentFueling = some f)
    (hv : ¬target20 ≤ (tickFueling f).volume) :
    intervalCallback s nid =
      { nozzles := updateFirst (fun m => m.id == nid) (tickNozzle f) s.nozzles,
        timers := s.timers ++ [⟨nid, TimerKind.intervalT⟩] } := by
  obtain ⟨a, b, c0⟩ := n
  have hb : b = 'A' := hs
  have hc : c0 = some f := hf
  subst hb hc
  unfold intervalCallback
  rw [h]
  dsimp only
  rw [if_neg hv, if_pos rfl]

theorem findNozzle_intervalCallback_other (s : EngineState) (nid2 nid : String)
    (hne : nid2 ≠ nid) : findNozzle (intervalCallback s nid2) nid = findNozzle s nid := by
  cases h : findNozzle s nid2 with
  | none => rw [intervalCallback_of_none _ _ h]
  | some n =>
    by_cases hs : n.status = 'A'
    · cases hf : n.currentFueling with
      | none => rw [intervalCallback_of_nofuel _ _ _ h hs hf, findNozzle_set_timers]
      | some f =>
        by_cases hv : target20 ≤ (tickFueling f).volume
        · rw [intervalCallback_of_complete _ _ _ _ h hs hf hv, findNozzle_eq]
          show findFirst _ (updateFirst _ (completeNozzle f) s.nozzles) = _
          rw [findFirst_id_update_other s.nozzles nid2 nid (completeNozzle f) hne
            (completeNozzle_id f), ← findNozzle_eq]
        · rw [intervalCallback_of_tick _ _ _ _ h hs hf hv, findNozzle_eq]
          show findFirst _ (updateFirst _ (tickNozzle f) s.nozzles) = _
          rw [findFirst_id_update_other s.nozzles nid2 nid (tickNozzle f) hne
            (tickNozzle_id f), ← findNozzle_eq]
    · rw [intervalCallback_of_notA _ _ _ h hs]

theorem findNozzle_resetCallback_self (s : EngineState) (nid : String) :
    findNozzle (resetCallback s nid) nid = (findNozzle s nid).map clearNozzle := by
  unfold resetCallback
  rw [findNozzle_eq]
  show findFirst _ (updateFirst _ clearNozzle s.nozzles) = _
  rw [findFirst_id_update_self s.nozzles nid clearNozzle clearNozzle_id, ← findNozzle_eq]

theorem findNozzle_resetCallback_other (s : EngineState) (nid2 nid : String)
    (hne : nid2 ≠ nid) : findNozzle (resetCallback s nid2) nid = findNozzle s nid := by
  unfold resetCallback
  rw [findNozzle_eq]
  show findFirst _ (updateFirst _ clearNozzle s.nozzles) = _
  rw [findFirst_id_update_other s.nozzles nid2 nid clearNozzle hne clearNozzle_id,
    ← findNozzle_eq]

/-! ## Arithmetic facts about the tick -/

theorem jsAdd_half_step : ∀ k : Fin 42, jsAdd (k.val * half) half = (k.val + 1) * half := by
  decide

theorem target20_le_iff (k : ℕ) : target20 ≤ k * half ↔ 40 ≤ k := by
  have hpos : 0 < half := by decide
  have h40 : target20 = 40 * half := by decide
  rw [h40]
  constructor
  · intro h
    exact Nat.le_of_mul_le_mul_right h hpos
  · intro h
    exact Nat.mul_le_mul_right half h

/-! ## Preservation of the invariant -/

theorem nozInv_promoteNozzle (m : Nozzle) : NozInv (promoteNozzle m) := by
  intro f hf
  simp only [promoteNozzle] at hf
  cases hf
  refine ⟨rfl, by decide, 0, by omega, rfl, fun _ => by omega⟩

theorem nozInv_clearNozzle (m : Nozzle) : NozInv (clearNozzle m) := by
  intro f hf
  simp [clearNozzle] at hf

theorem nozInv_commandNozzle (c : String) (n : Nozzle) (h : NozInv n) :
    NozInv (commandNozzle c n) := by
  intro f hf
  rw [commandNozzle_fueling] at hf
  obtain ⟨hp, ht, k, hk, hv, hA⟩ := h f hf
  refine ⟨hp, ht, k, hk, hv, fun hA2 => ?_⟩
  have he := commandNozzle_of_status_A c n hA2
  rw [he] at hA2
  exact hA hA2

theorem tickFueling_price (f : Fueling) : (tickFueling f).price = f.price := by
  rw [tickFueling]

theorem tickFueling_volume (f : Fueling) : (tickFueling f).volume = jsAdd f.volume half := by
  rw [tickFueling]

theorem tickFueling_total (f : Fueling) :
    (tickFueling f).total = jsToFixed2 (jsMul (jsAdd f.volume half) f.price) := by
  rw [tickFueling]

theorem nozInv_completeNozzle (f : Fueling) (m : Nozzle) (k : ℕ) (hk : k ≤ 39)
    (hp : f.price = price589) (hvol : f.volume = k * half) :
    NozInv (completeNozzle f m) := by
  intro g hg
  have hg2 : tickFueling f = g := by
    simp only [completeNozzle] at hg
    exact Option.some.inj hg
  subst hg2
  refine ⟨?_, ?_, k + 1, by omega, ?_, fun habs => absurd habs (of_decide_eq_false rfl)⟩
  · rw [tickFueling_price]
    exact hp
  · rw [tickFueling_total, tickFueling_volume, tickFueling_price]
  · rw [tickFueling_volume, hvol]
    exact jsAdd_half_step ⟨k, by omega⟩

theorem nozInv_tickNozzle (f : Fueling) (m : Nozzle) (k : ℕ) (hk : k + 1 ≤ 39)
    (hp : f.price = price589) (hvol : f.volume = k * half) :
    NozInv (tickNozzle f m) := by
  intro g hg
  have hg2 : tickFueling f = g := by
    simp only [tickNozzle] at hg
    exact Option.some.inj hg
  subst hg2
  refine ⟨?_, ?_, k + 1, by omega, ?_, fun _ => hk⟩
  · rw [tickFueling_price]
    exact hp
  · rw [tickFueling_total, tickFueling_volume, tickFueling_price]
  · rw [tickFueling_volume, hvol]
    exact jsAdd_half_step ⟨k, by omega⟩

theorem inv_set_timers (s : EngineState) (ts : List Timer) (h : Inv s) :
    Inv { s with timers := ts } := h

theorem inv_update (s : EngineState) (p : Nozzle → Bool) (fu : Nozzle → Nozzle)
    (ts : List Timer) (n0 : Nozzle) (hfind : findFirst p s.nozzles = some n0)
    (hid : ∀ m, (fu m).id = m.id) (h : Inv s) (hnew : NozInv (fu n0)) :
    Inv { nozzles := updateFirst p fu s.nozzles, timers := ts } := by
  constructor
  · show (updateFirst p fu s.nozzles).map _ = _
    rw [map_updateFirst _ p fu s.nozzles hid]
    exact h.1
  · intro m hm
    rcases mem_updateFirst_found hfind hm with hm2 | hm2
    · exact h.2 m hm2
    · rw [hm2]
      exact hnew

theorem inv_applyCommand (s : EngineState) (nid c : String) (h : Inv s) :
    Inv (applyCommand s nid c).2 := by
  cases hfind : findNozzle s nid with
  | none =>
    rw [applyCommand_of_none _ _ _ hfind]
    exact h
  | some n =>
    rw [applyCommand_of_some _ _ _ _ hfind]
    exact inv_update s _ (commandNozzle c) _ n hfind (commandNozzle_id c) h
      (nozInv_commandNozzle c n (h.2 n (mem_of_findFirst hfind)))

theorem inv_authCallback (s : EngineState) (nid : String) (h : Inv s) :
    Inv (authCallback s nid) := by
  cases hfind : findNozzle s nid with
  | none =>
    rw [authCallback_of_none _ _ hfind]
    exact h
  | some n =>
    by_cases hs : n.status = 'P'
    · rw [authCallback_of_P _ _ _ hfind hs]
      exact inv_update s _ promoteNozzle _ n hfind promoteNozzle_id h (nozInv_promoteNozzle n)
    · rw [authCallback_of_notP _ _ _ hfind hs]
      exact h

theorem inv_intervalCallback (s : EngineState) (nid : String) (h : Inv s) :
    Inv (intervalCallback s nid) := by
  cases hfind : findNozzle s nid with
  | none =>
    rw [intervalCallback_of_none _ _ hfind]
    exact h
  | some n =>
    by_cases hs : n.status = 'A'
    · cases hf : n.currentFueling with
      | none =>
        rw [intervalCallback_of_nofuel _ _ _ hfind hs hf]
        exact h
      | some f =>
        obtain ⟨hp, ht, k, hk40, hvol, hA⟩ := h.2 n (mem_of_findFirst hfind) f hf
        have hk39 : k ≤ 39 := hA hs
        have hstep : (tickFueling f).volume = (k + 1) * half := by
          rw [tickFueling_volume, hvol]
          exact jsAdd_half_step ⟨k, by omega⟩
        by_cases hv : target20 ≤ (tickFueling f).volume
        · rw [intervalCallback_of_complete _ _ _ _ hfind hs hf hv]
          exact inv_update s _ (completeNozzle f) _ n hfind (completeNozzle_id f) h
            (nozInv_completeNozzle f n k hk39 hp hvol)
        · rw [intervalCallback_of_tick _ _ _ _ hfind hs hf hv]
          have hk38 : k + 1 ≤ 39 := by
            rw [hstep, target20_le_iff] at hv
            omega
          exact inv_update s _ (tickNozzle f) _ n hfind (tickNozzle_id f) h
            (nozInv_tickNozzle f n k hk38 hp hvol)
    · rw [intervalCallback_of_notA _ _ _ hfind hs]
      exact h

theorem inv_resetCallback (s : EngineState) (nid : String) (h : Inv s) :
    Inv (resetCallback s nid) := by
  cases hfind : findNozzle s nid with
  | none =>
    unfold resetCallback
    rw [updateFirst_of_findFirst_none clearNozzle hfind]
    exact h
  | some n =>
    unfold resetCallback
    exact inv_update s _ clearNozzle _ n hfind clearNozzle_id h (nozInv_clearNozzle n)

theorem inv_fireTimer (s : EngineState) (i : ℕ) (h : Inv s) : Inv (fireTimer s i) := by
  cases ht : s.timers.get? i with
  | none =>
    rw [fireTimer_of_none _ _ ht]
    exact h
  | some t =>
    rw [fireTimer_of_some _ _ _ ht]
    have h1 : Inv { s with timers := s.timers.eraseIdx i } := h
    cases t.kind with
    | authT => exact inv_authCallback _ _ h1
    | intervalT => exact inv_intervalCallback _ _ h1
    | resetT => exact inv_resetCallback _ _ h1

theorem inv_step (s : EngineState) (e : Event) (h : Inv s) : Inv (step s e) := by
  cases e with
  | cmd nid c => exact inv_applyCommand s nid c h
  | fire i => exact inv_fireTimer s i h

theorem inv_run (s : EngineState) (es : List Event) (h : Inv s) : Inv (run s es) := by
  induction es generalizing s with
  | nil => exact h
  | cons e es ih => exact ih _ (inv_step s e h)

theorem inv_init : Inv initState := by
  constructor
  · rfl
  · intro n hn f hf
    have hall : ∀ n ∈ initNozzles, n.currentFueling = none := by decide
    rw [hall n hn] at hf
    cases hf

theorem inv_reachable (s : EngineState) (h : Reachable s) : Inv s := by
  obtain ⟨es, rfl⟩ := h
  exact inv_run _ _ inv_init

/-! ## How one step can change one nozzle's status and fueling -/

theorem findNozzle_intervalCallback_complete (s : EngineState) (nid : String) (n : Nozzle)
    (f : Fueling) (h : findNozzle s nid = some n) (hs : n.status = 'A')
    (hf : n.currentFueling = some f) (hv : target20 ≤ (tickFueling f).volume) :
    findNozzle (intervalCallback s nid) nid = some (completeNozzle f n) := by
  rw [intervalCallback_of_complete s nid n f h hs hf hv, findNozzle_eq]
  show findFirst _ (updateFirst _ (completeNozzle f) s.nozzles) = _
  rw [findFirst_id_update_self s.nozzles nid (completeNozzle f) (completeNozzle_id f),
    ← findNozzle_eq, h]
  rfl

theorem findNozzle_intervalCallback_tick (s : EngineState) (nid : String) (n : Nozzle)
    (f : Fueling) (h : findNozzle s nid = some n) (hs : n.status = 'A')
    (hf : n.currentFueling = some f) (hv : ¬target20 ≤ (tickFueling f).volume) :
    findNozzle (intervalCallback s nid) nid = some (tickNozzle f n) := by
  rw [intervalCallback_of_tick s nid n f h hs hf hv, findNozzle_eq]
  show findFirst _ (updateFirst _ (tickNozzle f) s.nozzles) = _
  rw [findFirst_id_update_self s.nozzles nid (tickNozzle f) (tickNozzle_id f),
    ← findNozzle_eq, h]
  rfl

theorem commandNozzle_status_fine (c : String) (n : Nozzle) :
    (commandNozzle c n).status = n.status ∨
      (c = "AUTHORIZE" ∧ (commandNozzle c n).status = 'P') ∨
      (commandNozzle c n).status = 'B' ∨ (commandNozzle c n).status = 'L' := by
  unfold commandNozzle
  split_ifs with h1 h2 h3 h4
  · exact Or.inr (Or.inl ⟨h1, rfl⟩)
  · exact Or.inl rfl
  · exact Or.inr (Or.inr (Or.inl rfl))
  · exact Or.inr (Or.inr (Or.inr rfl))
  · exact Or.inl rfl

theorem isPromotion_status (s : EngineState) (nid : String) (e : Event)
    (h : isPromotion s nid e = true) : statusOf s nid = some 'P' := by
  cases e with
  | cmd a b => simp [isPromotion] at h
  | fire i =>
    cases ht : s.timers.get? i with
    | none =>
      simp only [isPromotion, ht] at h
      exact Bool.noConfusion h
    | some t =>
      simp only [isPromotion, ht, Bool.and_eq_true, beq_iff_eq, decide_eq_true_eq] at h
      exact h.2

theorem isPromotion_of (s : EngineState) (nid : String) (i : ℕ) (t : Timer)
    (ht : s.timers.get? i = some t) (hk : t.kind = TimerKind.authT) (hn : t.nid = nid)
    (hs : statusOf s nid = some 'P') : isPromotion s nid (Event.fire i) = true := by
  simp only [isPromotion, ht, Bool.and_eq_true, beq_iff_eq, decide_eq_true_eq]
  exact ⟨⟨hk, hn⟩, hs⟩

/-- Master case analysis: one step leaves a nozzle's status unchanged,
or moves it to 'P' (accepted `AUTHORIZE`), 'B' (`BLOCK`), 'L' (`FREE`
or the reset timeout), 'A' (exactly an `isPromotion` firing), or 'C'
(an interval tick, possible only from 'A'). -/
theorem statusOf_step_main (s : EngineState) (nid : String) (e : Event) (c : Char)
    (hc : statusOf s nid = some c) :
    ∃ d, statusOf (step s e) nid = some d ∧
      (d = c ∨ (d = 'P' ∧ e = Event.cmd nid "AUTHORIZE") ∨ d = 'B' ∨ d = 'L' ∨
        (d = 'A' ∧ isPromotion s nid e = true) ∨ (d = 'C' ∧ c = 'A')) := by
  obtain ⟨n, hfind, hstat⟩ : ∃ n, findNozzle s nid = some n ∧ n.status = c := by
    unfold statusOf at hc
    cases hfind : findNozzle s nid with
    | none => rw [hfind] at hc; cases hc
    | some n => rw [hfind] at hc; exact ⟨n, rfl, Option.some.inj hc⟩
  cases e with
  | cmd nid2 c2 =>
    rw [step_cmd]
    by_cases hnn : nid2 = nid
    · subst hnn
      refine ⟨(commandNozzle c2 n).status, ?_, ?_⟩
      · unfold statusOf
        rw [findNozzle_afterCommand_self s nid2 c2 n hfind]
        rfl
      · rcases commandNozzle_status_fine c2 n with h2 | ⟨ha, h2⟩ | h2 | h2
        · exact Or.inl (by rw [h2, hstat])
        · exact Or.inr (Or.inl ⟨h2, by rw [ha]⟩)
        · exact Or.inr (Or.inr (Or.inl h2))
        · exact Or.inr (Or.inr (Or.inr (Or.inl h2)))
    · refine ⟨c, ?_, Or.inl rfl⟩
      unfold statusOf
      rw [findNozzle_afterCommand_other s nid2 c2 nid hnn]
      exact hc
  | fire i =>
    rw [step_fire]
    cases ht : s.timers.get? i with
    | none =>
      rw [fireTimer_of_none _ _ ht]
      exact ⟨c, hc, Or.inl rfl⟩
    | some t =>
      rw [fireTimer_of_some _ _ _ ht]
      have hfind1 : findNozzle { s with timers := s.timers.eraseIdx i } nid = some n := hfind
      cases htk : t.kind with
      | authT =>
        by_cases hnn : t.nid = nid
        · by_cases hP : n.status = 'P'
          · have hcP : c = 'P' := by rw [← hstat]; exact hP
            refine ⟨'A', ?_, Or.inr (Or.inr (Or.inr (Or.inr (Or.inl ⟨rfl, ?_⟩))))⟩
            · unfold statusOf
              rw [hnn, findNozzle_authCallback_self _ nid n hfind1 hP]
              rfl
            · exact isPromotion_of s nid i t ht htk hnn (by rw [hc, hcP])
          · refine ⟨c, ?_, Or.inl rfl⟩
            rw [hnn, authCallback_of_notP _ nid n hfind1 hP]
            exact hc
        · refine ⟨c, ?_, Or.inl rfl⟩
          unfold statusOf
          rw [findNozzle_authCallback_other _ t.nid nid hnn, findNozzle_set_timers]
          exact hc
      | intervalT =>
        by_cases hnn : t.nid = nid
        · by_cases hA : n.status = 'A'
          · cases hfuel : n.currentFueling with
            | none =>
              refine ⟨c, ?_, Or.inl rfl⟩
              rw [hnn, intervalCallback_of_nofuel _ nid n hfind1 hA hfuel]
              exact hc
            | some f =>
              by_cases hv : target20 ≤ (tickFueling f).volume
              · refine ⟨'C', ?_,
                  Or.inr (Or.inr (Or.inr (Or.inr (Or.inr ⟨rfl, by rw [← hstat]; exact hA⟩))))⟩
                unfold statusOf
                rw [hnn, findNozzle_intervalCallback_complete _ nid n f hfind1 hA hfuel hv]
                rfl
              · refine ⟨c, ?_, Or.inl rfl⟩
                unfold statusOf
                rw [hnn, findNozzle_intervalCallback_tick _ nid n f hfind1 hA hfuel hv]
                show some (tickNozzle f n).status = some c
                rw [show (tickNozzle f n).status = n.status from rfl, hstat]
          · refine ⟨c, ?_, Or.inl rfl⟩
            rw [hnn, intervalCallback_of_notA _ nid n hfind1 hA]
            exact hc
        · refine ⟨c, ?_, Or.inl rfl⟩
          unfold statusOf
          rw [findNozzle_intervalCallback_other _ t.nid nid hnn, findNozzle_set_timers]
          exact hc
      | resetT =>
        by_cases hnn : t.nid = nid
        · refine ⟨'L', ?_, Or.inr (Or.inr (Or.inr (Or.inl rfl)))⟩
          unfold statusOf
          rw [hnn, findNozzle_resetCallback_self _ nid, hfind1]
          rfl
        · refine ⟨c, ?_, Or.inl rfl⟩
          unfold statusOf
          rw [findNozzle_resetCallback_other _ t.nid nid hnn, findNozzle_set_timers]
          exact hc

/-- Without a promotion event, a nozzle in 'B', 'L' or 'P' stays in
that set along any trace (in particular it never shows 'A' or 'C'). -/
theorem statusOf_run_blp (nid : String) (es : List Event) :
    ∀ s c, statusOf s nid = some c → (c = 'B' ∨ c = 'L' ∨ c = 'P') →
      promotionFree nid s es = true →
      ∃ d, statusOf (run s es) nid = some d ∧ (d = 'B' ∨ d = 'L' ∨ d = 'P') := by
  induction es with
  | nil => exact fun s c hc hblp _ => ⟨c, hc, hblp⟩
  | cons e es ih =>
    intro s c hc hblp hpf
    have hpf2 : isPromotion s nid e = false ∧ promotionFree nid (step s e) es = true := by
      simp only [promotionFree, Bool.and_eq_true, Bool.not_eq_true'] at hpf
      exact hpf
    obtain ⟨d, hd, hcase⟩ := statusOf_step_main s nid e c hc
    rw [run_cons]
    rcases hcase with h2 | ⟨h2, _⟩ | h2 | h2 | ⟨h2, hpr⟩ | ⟨h2, hcA⟩
    · exact ih (step s e) d hd (by rw [h2]; exact hblp) hpf2.2
    · exact ih _ d hd (Or.inr (Or.inr h2)) hpf2.2
    · exact ih _ d hd (Or.inl h2) hpf2.2
    · exact ih _ d hd (Or.inr (Or.inl h2)) hpf2.2
    · rw [hpf2.1] at hpr
      exact Bool.noConfusion hpr
    · rcases hblp with h3 | h3 | h3 <;> rw [h3] at hcA <;> exact absurd hcA (by decide)

/-- Without a further `AUTHORIZE` command, a nozzle in 'B' or 'L' stays
in that set along any trace: in particular a pending authorization
timeout never promotes it. -/
theorem statusOf_run_bl (nid : String) (es : List Event) :
    ∀ s c, statusOf s nid = some c → (c = 'B' ∨ c = 'L') →
      (∀ e2 ∈ es, e2 ≠ Event.cmd nid "AUTHORIZE") →
      ∃ d, statusOf (run s es) nid = some d ∧ (d = 'B' ∨ d = 'L') := by
  induction es with
  | nil => exact fun s c hc hbl _ => ⟨c, hc, hbl⟩
  | cons e es ih =>
    intro s c hc hbl hna
    obtain ⟨d, hd, hcase⟩ := statusOf_step_main s nid e c hc
    rw [run_cons]
    have hna2 : ∀ e2 ∈ es, e2 ≠ Event.cmd nid "AUTHORIZE" :=
      fun e2 he2 => hna e2 (List.mem_cons_of_mem _ he2)
    rcases hcase with h2 | ⟨h2, he⟩ | h2 | h2 | ⟨h2, hpr⟩ | ⟨h2, hcA⟩
    · exact ih _ d hd (by rw [h2]; exact hbl) hna2
    · exact absurd he (hna e (List.mem_cons_self _ _))
    · exact ih _ d hd (Or.inl h2) hna2
    · exact ih _ d hd (Or.inr h2) hna2
    · have h4 := isPromotion_status s nid e hpr
      rw [hc] at h4
      have hcP : c = 'P' := Option.some.inj h4
      rcases hbl with h3 | h3 <;> rw [h3] at hcP <;> exact absurd hcP (by decide)
    · rcases hbl with h3 | h3 <;> rw [h3] at hcA <;> exact absurd hcA (by decide)

/-- Master case analysis for the fueling record: one step leaves it
unchanged, replaces it by the fresh `{0, 0, 5.89}` record (exactly an
`isPromotion` firing), ticks it (only while the status is 'A'), or
clears it to `null` (the reset timeout). -/
theorem fuelingOf_step_main (s : EngineState) (nid : String) (e : Event) (f : Fueling)
    (hf : fuelingOf s nid = some (some f)) :
    fuelingOf (step s e) nid = some (some f) ∨
      (fuelingOf (step s e) nid = some (some ⟨0, 0, price589⟩) ∧
        isPromotion s nid e = true) ∨
      (fuelingOf (step s e) nid = some (some (tickFueling f)) ∧
        statusOf s nid = some 'A') ∨
      fuelingOf (step s e) nid = some none := by
  obtain ⟨n, hfind, hfuel⟩ : ∃ n, findNozzle s nid = some n ∧ n.currentFueling = some f := by
    unfold fuelingOf at hf
    cases hfind : findNozzle s nid with
    | none => rw [hfind] at hf; cases hf
    | some n => rw [hfind] at hf; exact ⟨n, rfl, Option.some.inj hf⟩
  cases e with
  | cmd nid2 c2 =>
    rw [step_cmd]
    by_cases hnn : nid2 = nid
    · subst hnn
      left
      unfold fuelingOf
      rw [findNozzle_afterCommand_self s nid2 c2 n hfind]
      show some (commandNozzle c2 n).currentFueling = _
      rw [commandNozzle_fueling, hfuel]
    · left
      unfold fuelingOf
      rw [findNozzle_afterCommand_other s nid2 c2 nid hnn]
      exact hf
  | fire i =>
    rw [step_fire]
    cases ht : s.timers.get? i with
    | none =>
      rw [fireTimer_of_none _ _ ht]
      exact Or.inl hf
    | some t =>
      rw [fireTimer_of_some _ _ _ ht]
      have hfind1 : findNozzle { s with timers := s.timers.eraseIdx i } nid = some n := hfind
      cases htk : t.kind with
      | authT =>
        by_cases hnn : t.nid = nid
        · by_cases hP : n.status = 'P'
          · right; left
            constructor
            · unfold fuelingOf
              rw [hnn, findNozzle_authCallback_self _ nid n hfind1 hP]
              rfl
            · refine isPromotion_of s nid i t ht htk hnn ?_
              unfold statusOf
              rw [hfind]
              show some n.status = some 'P'
              rw [hP]
          · left
            rw [hnn, authCallback_of_notP _ nid n hfind1 hP]
            exact hf
        · left
          unfold fuelingOf
          rw [findNozzle_authCallback_other _ t.nid nid hnn, findNozzle_set_timers]
          exact hf
      | intervalT =>
        by_cases hnn : t.nid = nid
        · by_cases hA : n.status = 'A'
          · by_cases hv : target20 ≤ (tickFueling f).volume
            · right; right; left
              constructor
              · unfold fuelingOf
                rw [hnn, findNozzle_intervalCallback_complete _ nid n f hfind1 hA hfuel hv]
                rfl
              · unfold statusOf
                rw [hfind]
                show some n.status = some 'A'
                rw [hA]
            · right; right; left
              constructor
              · unfold fuelingOf
                rw [hnn, findNozzle_intervalCallback_tick _ nid n f hfind1 hA hfuel hv]
                rfl
              · unfold statusOf
                rw [hfind]
                show some n.status = some 'A'
                rw [hA]
          · left
            rw [hnn, intervalCallback_of_notA _ nid n hfind1 hA]
            exact hf
        · left
          unfold fuelingOf
          rw [findNozzle_intervalCallback_other _ t.nid nid hnn, findNozzle_set_timers]
          exact hf
      | resetT =>
        by_cases hnn : t.nid = nid
        · right; right; right
          unfold fuelingOf
          rw [hnn, findNozzle_resetCallback_self _ nid, hfind1]
          rfl
        · left
          unfold fuelingOf
          rw [findNozzle_resetCallback_other _ t.nid nid hnn, findNozzle_set_timers]
          exact hf

/-! ## The claims -/

/-- C1: the claim states that `fueling != null` iff the status is
Authorized ('A') or Completed ('C'), with fueling null in every other
status including states reached by BLOCK or FREE mid-episode.  The code
violates this: the `BLOCK` and `FREE` cases of the command switch
(src/server.ts lines 76-77) set the status but never clear
`currentFueling`.  Evaluating the server: after BLOCK mid-fueling the
nozzle reads status 'B' with a non-null fueling record, and after FREE
mid-fueling it reads status 'L' with a non-null fueling record. -/
theorem C1_block_keeps_fueling :
    statusOf (run initState trBlockMidFueling) "01" = some 'B' ∧
    fuelingOf (run initState trBlockMidFueling) "01" = some (some ⟨0, 0, price589⟩) ∧
    statusOf (run initState trFreeMidFueling) "01" = some 'L' ∧
    fuelingOf (run initState trFreeMidFueling) "01" = some (some ⟨0, 0, price589⟩) := by
  decide

/-- C2: the claim states that every timer callback mutates the nozzle
only if it is still in the exact state the timer was scheduled to
advance from.  The authorization timeout and the interval do check
(`status === 'P'`, `status !== 'A'`), but the completion-to-free
`setTimeout` (src/server.ts lines 64-67) has no guard: blocking the
nozzle during the 3000 ms completion wait does not stop it.  Evaluating
the server: after a full episode reaches 'C' (scheduling the reset
timer) and a subsequent BLOCK moves the nozzle to 'B', firing the
pending reset timer still mutates the nozzle to 'L' and clears its
fueling record, although the nozzle was no longer in 'C'. -/
theorem C2_reset_timer_unguarded :
    statusOf (run initState trBlockDuringReset) "01" = some 'B' ∧
    (run initState trBlockDuringReset).timers = [⟨"01", TimerKind.resetT⟩] ∧
    statusOf (step (run initState trBlockDuringReset) (Event.fire 0)) "01" = some 'L' ∧
    fuelingOf (step (run initState trBlockDuringReset) (Event.fire 0)) "01" = some none := by
  decide

/-- C3: the claim states that FREE, from any state, sets the status to
Free and clears the fueling record to null.  The code's `FREE` case
(src/server.ts line 77) only runs `nozzle.status = 'L'` and leaves
`currentFueling` untouched.  Evaluating the server: FREE issued
mid-fueling answers success and leaves status 'L' with the fueling
record still present. -/
theorem C3_free_keeps_fueling :
    (applyCommand (run initState trStartFueling) "01" "FREE").1 =
      ApiResult.success ⟨"01", 'L', some ⟨0, 0, price589⟩⟩ ∧
    statusOf (run initState trFreeMidFueling) "01" = some 'L' ∧
    fuelingOf (run initState trFreeMidFueling) "01" = some (some ⟨0, 0, price589⟩) := by
  decide

/-- C4: AUTHORIZE moves a nozzle to Ready ('P') exactly when its
current status is Waiting ('E') or Blocked ('B'); applied in any other
status it is a silent no-op: the dispatcher still answers success with
the nozzle's record and the entire state (statuses, fueling records and
timers) is unchanged. -/
theorem C4_authorize_guard (s : EngineState) (nid : String) (n : Nozzle)
    (hfind : findNozzle s nid = some n) :
    (applyCommand s nid "AUTHORIZE").1 = ApiResult.success (commandNozzle "AUTHORIZE" n) ∧
    ((n.status = 'E' ∨ n.status = 'B') →
      statusOf (applyCommand s nid "AUTHORIZE").2 nid = some 'P' ∧
      fuelingOf (applyCommand s nid "AUTHORIZE").2 nid = some n.currentFueling) ∧
    (¬(n.status = 'E' ∨ n.status = 'B') →
      applyCommand s nid "AUTHORIZE" = (ApiResult.success n, s)) := by
  refine ⟨?_, ?_, ?_⟩
  · rw [applyCommand_of_some s nid _ n hfind]
  · intro hEB
    constructor
    · unfold statusOf
      rw [findNozzle_afterCommand_self s nid _ n hfind]
      show some (commandNozzle "AUTHORIZE" n).status = some 'P'
      rw [commandNozzle_auth_accept n hEB]
    · unfold fuelingOf
      rw [findNozzle_afterCommand_self s nid _ n hfind]
      show some (commandNozzle "AUTHORIZE" n).currentFueling = some n.currentFueling
      rw [commandNozzle_fueling]
  · intro hnEB
    rw [applyCommand_of_some s nid _ n hfind, commandNozzle_auth_reject n hnEB,
      commandTimers_reject n s.timers hnEB,
      updateFirst_of_fix hfind (commandNozzle_auth_reject n hnEB)]

theorem C4_authorize_guard_witness :
    statusOf (applyCommand (run initState [Event.cmd "01" "BLOCK"]) "01" "AUTHORIZE").2 "01" =
      some 'P' :=
  ((C4_authorize_guard (run initState [Event.cmd "01" "BLOCK"]) "01" ⟨"01", 'B', none⟩
    (by decide)).2.1 (Or.inr rfl)).1

/-- C5: for every nozzleId matching no existing nozzle and every
command, the dispatcher answers the NotFound error (HTTP 404) and the
state — every nozzle's status and fueling, and the pending timers — is
left untouched. -/
theorem C5_unknown_nozzle (s : EngineState) (nid command : String)
    (h : ∀ n ∈ s.nozzles, ¬n.id = nid) :
    applyCommand s nid command = (ApiResult.notFound, s) := by
  refine applyCommand_of_none s nid command ?_
  unfold findNozzle
  apply findFirst_eq_none
  intro a ha
  exact beq_eq_false_iff_ne.mpr (h a ha)

theorem C5_unknown_nozzle_witness :
    applyCommand initState "99" "AUTHORIZE" = (ApiResult.notFound, initState) :=
  C5_unknown_nozzle initState "99" "AUTHORIZE" (by decide)

/-- C6: BLOCK at any time cancels forward progress.  Immediately after
`BLOCK` the nozzle reads 'B'; along any continuation in which no
authorization timeout fires as a promotion (`promotionFree`), its
status never reads Completed ('C') — so a nozzle blocked mid-fueling
never reaches 'C' from that episode, a new episode requiring a
promotion first; and along any continuation containing no further
`AUTHORIZE` command for it, its status never reads 'A' — the promotion
scheduled before the BLOCK never fires its mutation. -/
theorem C6_block_cancels (s : EngineState) (nid : String) (n : Nozzle)
    (hfind : findNozzle s nid = some n) (es : List Event) :
    statusOf (step s (Event.cmd nid "BLOCK")) nid = some 'B' ∧
    (promotionFree nid (step s (Event.cmd nid "BLOCK")) es = true →
      statusOf (run (step s (Event.cmd nid "BLOCK")) es) nid ≠ some 'C') ∧
    ((∀ e ∈ es, e ≠ Event.cmd nid "AUTHORIZE") →
      statusOf (run (step s (Event.cmd nid "BLOCK")) es) nid ≠ some 'A') := by
  have hB : statusOf (step s (Event.cmd nid "BLOCK")) nid = some 'B' := by
    rw [step_cmd]
    unfold statusOf
    rw [findNozzle_afterCommand_self s nid _ n hfind]
    show some (commandNozzle "BLOCK" n).status = some 'B'
    rw [commandNozzle_block]
  refine ⟨hB, ?_, ?_⟩
  · intro hpf
    obtain ⟨d, hd, hdblp⟩ := statusOf_run_blp nid es _ 'B' hB (Or.inl rfl) hpf
    rw [hd]
    intro hcontra
    have hdC : d = 'C' := Option.some.inj hcontra
    rcases hdblp with h | h | h <;> rw [h] at hdC <;> exact absurd hdC (by decide)
  · intro hna
    obtain ⟨d, hd, hdbl⟩ := statusOf_run_bl nid es _ 'B' hB (Or.inl rfl) hna
    rw [hd]
    intro hcontra
    have hdA : d = 'A' := Option.some.inj hcontra
    rcases hdbl with h | h <;> rw [h] at hdA <;> exact absurd hdA (by decide)

theorem C6_block_cancels_witness :
    statusOf (step (run initState trStartFueling) (Event.cmd "01" "BLOCK")) "01" = some 'B' :=
  (C6_block_cancels (run initState trStartFueling) "01" ⟨"01", 'A', some ⟨0, 0, price589⟩⟩
    (by decide) [Event.fire 0]).1

/-- C7 counterexample: the claim predicts that after the first
0.5-liter tick the total is 2.95 (idealized
`round(0.5 * 5.89, 2) = 2.95`, confirmed by `specRound2Cents` on the
exact product 589/200).  Evaluating the server: after the first tick
volume is 0.5 but the stored total is the double printed as 2.94 —
`(0.5 * 5.89)` in binary64 is 2.94499999999999984…, which
`toFixed(2)` rounds down — and that double differs from the double
printed as 2.95. -/
theorem C7_first_tick_total_counterexample :
    findNozzle (run initState trFirstTick) "01" =
      some ⟨"01", 'A', some ⟨half, toDoubleS 294 100, price589⟩⟩ ∧
    specRound2Cents 589 200 = 295 ∧
    toDoubleS 294 100 ≠ toDoubleS 295 100 := by
  decide

/-- C7 (amended): at every observed instant while a fueling record
exists, `total = Number((volume * price).toFixed(2))` as computed in
IEEE-754 binary64 arithmetic; when fueling starts the record is
`{volume: 0, total: 0, price: 5.89}`, and after the first 0.5-liter
tick the volume is 0.5 and the total is the double printed as 2.94
(not 2.95: the float product 0.5 × 5.89 = 2.94499999999999984… rounds
down under `toFixed(2)`). -/
theorem C7_total_invariant :
    (∀ s, Reachable s → ∀ n ∈ s.nozzles, ∀ f, n.currentFueling = some f →
      f.total = jsToFixed2 (jsMul f.volume f.price)) ∧
    findNozzle (run initState trStartFueling) "01" =
      some ⟨"01", 'A', some ⟨0, 0, price589⟩⟩ ∧
    findNozzle (run initState trFirstTick) "01" =
      some ⟨"01", 'A', some ⟨half, toDoubleS 294 100, price589⟩⟩ := by
  refine ⟨?_, by decide, by decide⟩
  intro s hs n hn f hf
  obtain ⟨hp, ht, _⟩ := (inv_reachable s hs).2 n hn f hf
  exact ht

theorem C7_total_invariant_witness :
    toDoubleS 294 100 = jsToFixed2 (jsMul half price589) :=
  C7_total_invariant.1 (run initState trFirstTick) ⟨trFirstTick, rfl⟩
    ⟨"01", 'A', some ⟨half, toDoubleS 294 100, price589⟩⟩ (by decide)
    ⟨half, toDoubleS 294 100, price589⟩ rfl

/-- C8: within a single fueling episode the volume never decreases
across consecutive observed samples — any step that is not the start of
a new episode (`isPromotion`) either leaves the record alone or adds
exactly the fixed 0.5-liter quantum — and the price field never changes
from the value set at authorization time. -/
theorem C8_volume_monotone (s : EngineState) (hs : Reachable s) (e : Event) (nid : String)
    (f g : Fueling) (hf : fuelingOf s nid = some (some f))
    (hg : fuelingOf (step s e) nid = some (some g))
    (hprom : isPromotion s nid e = false) :
    (g.volume = f.volume ∨ g.volume = f.volume + half) ∧
    f.volume ≤ g.volume ∧ g.price = f.price := by
  rcases fuelingOf_step_main s nid e f hf with h | ⟨h, hpr⟩ | ⟨h, hA⟩ | h
  · rw [h] at hg
    have hfg : f = g := Option.some.inj (Option.some.inj hg)
    subst hfg
    exact ⟨Or.inl rfl, le_refl _, rfl⟩
  · rw [hpr] at hprom
    exact Bool.noConfusion hprom
  · rw [h] at hg
    have hgt : tickFueling f = g := Option.some.inj (Option.some.inj hg)
    obtain ⟨n, hfind, hfuel⟩ : ∃ n, findNozzle s nid = some n ∧ n.currentFueling = some f := by
      unfold fuelingOf at hf
      cases hfind : findNozzle s nid with
      | none => rw [hfind] at hf; cases hf
      | some n => rw [hfind] at hf; exact ⟨n, rfl, Option.some.inj hf⟩
    obtain ⟨hp, ht2, k, hk40, hvol, hA2⟩ :=
      (inv_reachable s hs).2 n (mem_of_findFirst hfind) f hfuel
    have hnA : n.status = 'A' := by
      unfold statusOf at hA
      rw [hfind] at hA
      exact Option.some.inj hA
    have hk39 : k ≤ 39 := hA2 hnA
    have hstep : (tickFueling f).volume = (k + 1) * half := by
      rw [tickFueling_volume, hvol]
      exact jsAdd_half_step ⟨k, by omega⟩
    subst hgt
    refine ⟨Or.inr ?_, ?_, ?_⟩
    · rw [hstep, hvol, Nat.succ_mul]
    · rw [hstep, hvol]
      exact Nat.mul_le_mul_right half (by omega)
    · exact tickFueling_price f
  · rw [h] at hg
    exact Option.noConfusion (Option.some.inj hg)

theorem C8_volume_monotone_witness :
    (half = 0 ∨ half = 0 + half) ∧ (0 : ℕ) ≤ half ∧ price589 = price589 :=
  C8_volume_monotone (run initState trStartFueling) ⟨trStartFueling, rfl⟩ (Event.fire 0) "01"
    ⟨0, 0, price589⟩ ⟨half, toDoubleS 294 100, price589⟩ (by decide) (by decide) (by decide)

/-- C9: the Snapshot Reader (`GET /api/status`) is total — it returns,
for every reachable state, exactly the current in-memory nozzle array,
with no filtering or pagination: the full ordered sequence of all 48
records with their startup ids. -/
theorem C9_snapshot (s : EngineState) (hs : Reachable s) :
    getStatus s = s.nozzles ∧ (getStatus s).length = 48 ∧
    (getStatus s).map (fun n => n.id) = initNozzles.map (fun n => n.id) := by
  have hids := (inv_reachable s hs).1
  refine ⟨rfl, ?_, hids⟩
  calc (getStatus s).length
      = ((getStatus s).map (fun n => n.id)).length := (List.length_map _ _).symm
    _ = (initNozzles.map (fun n => n.id)).length := by
        show ((s.nozzles).map (fun n => n.id)).length = _
        rw [hids]
    _ = 48 := by decide

theorem C9_snapshot_witness :
    getStatus (run initState trStartFueling) = (run initState trStartFueling).nozzles ∧
    (getStatus (run initState trStartFueling)).length = 48 ∧
    (getStatus (run initState trStartFueling)).map (fun n => n.id) =
      initNozzles.map (fun n => n.id) :=
  C9_snapshot (run initState trStartFueling) ⟨trStartFueling, rfl⟩

/-- C10: at engine initialization the collection holds exactly 48
records whose ids are the pairwise-distinct zero-padded two-digit
strings "01" through "48" in that order, each Free ('L') with null
fueling; and no operation — command or timer — ever changes a nozzle's
id, adds a record, removes a record, or reorders the collection (the id
column of every reachable state equals the startup id column). -/
theorem C10_init_and_ids :
    initNozzles.length = 48 ∧
    initNozzles.map (fun n => n.id) =
      ["01", "02", "03", "04", "05", "06", "07", "08", "09", "10", "11", "12",
        "13", "14", "15", "16", "17", "18", "19", "20", "21", "22", "23", "24",
        "25", "26", "27", "28", "29", "30", "31", "32", "33", "34", "35", "36",
        "37", "38", "39", "40", "41", "42", "43", "44", "45", "46", "47", "48"] ∧
    (initNozzles.map (fun n => n.id)).Nodup ∧
    (∀ n ∈ initNozzles, n.status = 'L' ∧ n.currentFueling = none) ∧
    (∀ s, Reachable s → s.nozzles.map (fun n => n.id) = initNozzles.map (fun n => n.id)) := by
  refine ⟨by decide, by decide, by decide, by decide, ?_⟩
  intro s hs
  exact (inv_reachable s hs).1

theorem C10_init_and_ids_witness :
    (run initState trBlockMidFueling).nozzles.map (fun n => n.id) =
      initNozzles.map (fun n => n.id) :=
  C10_init_and_ids.2.2.2.2 (run initState trBlockMidFueling) ⟨trBlockMidFueling, rfl⟩

end ConsoleBombas
